import Mathlib

/-!
Shallow embedding of `src/ecs.py` (OLSSurvivor): the entity/component core.

Modelling conventions:
* A Python `dict` is an association list that keeps insertion order and
  (by construction through `dictSet` / `dsetE`) unique keys; `dict.values()`
  is the list of second components in order.
* A raised `KeyError` is `Option.none`; a Python function with no `return`
  statement yields the Python value `None`, embedded as `Value.none`.
* In-place mutation of a shared entity object is rendered by the store
  carrying the updated entity value and the caller receiving the same
  updated value (see `EntityManager.add_ent`).
* `hashlib.md5(...).hexdigest()` is embedded by an executable MD5 over byte
  lists (RFC 1321), and `str.encode('utf-8')` by an explicit UTF-8 encoder.
-/

namespace OLS

/-- A Python value as it occurs in entity components of this code base:
`None`, ints, strings, booleans. -/
inductive Value where
  | none : Value
  | int (i : Int) : Value
  | str (s : String) : Value
  | bool (b : Bool) : Value
deriving DecidableEq, Repr

/-- Embedding of `class Entity(dict)`: an entity is just a dict from component name to
component value (insertion-ordered association list). -/
abbrev Entity := List (String × Value)

/-- The store `EntityManager.ents`: a dict from integer id to entity. -/
abbrev Store := List (Nat × Entity)

/-- Keyword arguments passed to a filter (`**kwargs`). -/
abbrev Criteria := List (String × Value)

/-- Python `comp in ent`: key membership test on a dict. -/
def hasKey (e : Entity) (k : String) : Bool :=
  e.any (fun kv => kv.1 == k)

/-- First binding of a key in an entity, if any (`dict` lookup). -/
def lookupE (e : Entity) (k : String) : Option Value :=
  (e.find? (fun kv => kv.1 == k)).map (fun kv => kv.2)

/-- Python `dict.get`: the bound value, or Python `None` when the key is absent.
`Entity.__getattr__ = dict.get`, so this is attribute-style access. -/
def Entity.getattr (e : Entity) (k : String) : Value :=
  (lookupE e k).getD Value.none

/-- Python `d[k] = v` on a string-keyed dict: overwrite in place when the key is
present (keeping its position), append otherwise. -/
def dsetE : Entity → String → Value → Entity
  | [], k, v => [(k, v)]
  | kv :: rest, k, v =>
      if kv.1 = k then (k, v) :: rest else kv :: dsetE rest k v

/-- Python `d[k] = v` on the integer-keyed entity store, same dict semantics. -/
def dictSet : Store → Nat → Entity → Store
  | [], k, v => [(k, v)]
  | kv :: rest, k, v =>
      if kv.1 = k then (k, v) :: rest else kv :: dictSet rest k v

/-- Reading `self.ents[id]`: `Option.none` models the raised `KeyError`. -/
def sget (s : Store) (k : Nat) : Option Entity :=
  (s.find? (fun kv => kv.1 == k)).map (fun kv => kv.2)

/-! ### Canonicalization and hashing (`EntityManager.do_step`, lines 38-54) -/

/-- Python string comparison on character lists: lexicographic by code
point. -/
def charListLt : List Char → List Char → Bool
  | _, [] => false
  | [], _ :: _ => true
  | a :: as, b :: bs =>
      if Nat.blt a.toNat b.toNat then true
      else if Nat.blt b.toNat a.toNat then false
      else charListLt as bs

/-- Python `s < t` on strings, as an executable Boolean. -/
def strLt (s t : String) : Bool :=
  charListLt s.toList t.toList

/-- Insert a `(key, value)` pair into a key-sorted list of pairs.
Python's `sorted` on a dict's items compares the pairs lexicographically;
since the keys of one dict are distinct, only the string keys decide. -/
def insertByKey (p : String × Value) : List (String × Value) → List (String × Value)
  | [] => [p]
  | q :: rest => if strLt p.1 q.1 then p :: q :: rest else q :: insertByKey p rest

/-- Python `sorted(ent.items())`: the entity's pairs sorted by key (ascending). -/
def sortItems (e : Entity) : List (String × Value) :=
  e.foldr insertByKey []

/-- The `state` list built by `do_step`: one key-sorted item sequence per
entity, in the store's iteration order. -/
def canonState (ents : Store) : List (List (String × Value)) :=
  ents.map (fun kv => sortItems kv.2)

/-- Python `repr` of a string: quote choice and escaping as `repr` performs
them for ASCII-range payloads (the component keys and values used here). -/
def escChar (q : Char) (c : Char) : List Char :=
  if c = '\\' then ['\\', '\\']
  else if c = q then ['\\', q]
  else if c = '\n' then ['\\', 'n']
  else if c = '\r' then ['\\', 'r']
  else if c = '\t' then ['\\', 't']
  else if c.toNat < 32 || c.toNat == 127 then
    ['\\', 'x',
      (if c.toNat / 16 < 10 then Char.ofNat (48 + c.toNat / 16)
        else Char.ofNat (87 + c.toNat / 16)),
      (if c.toNat % 16 < 10 then Char.ofNat (48 + c.toNat % 16)
        else Char.ofNat (87 + c.toNat % 16))]
  else [c]

/-- Python `repr` of a `str`: single quotes, switching to double quotes when
the text holds a single quote but no double quote. -/
def pyReprString (s : String) : String :=
  let hasSingle := s.toList.contains '\''
  let hasDouble := s.toList.contains '"'
  let q : Char := if hasSingle && !hasDouble then '"' else '\''
  String.mk (q :: ((s.toList.map (escChar q)).flatten ++ [q]))

/-- Python `repr` of a component value. -/
def pyReprValue : Value → String
  | Value.none => "None"
  | Value.int i => toString i
  | Value.str s => pyReprString s
  | Value.bool b => if b then "True" else "False"

/-- Python `str`/`repr` of a tuple given the reprs of its elements:
`()`, `(x,)`, `(x, y, ...)`. -/
def tupleRepr : List String → String
  | [] => "()"
  | [x] => "(" ++ x ++ ",)"
  | xs => "(" ++ String.intercalate ", " xs ++ ")"

/-- Python `repr` of one `(key, value)` item pair. -/
def pyReprPair (p : String × Value) : String :=
  "(" ++ pyReprString p.1 ++ ", " ++ pyReprValue p.2 ++ ")"

/-- Python `repr` of `tuple(sorted(ent.items()))`. -/
def pyReprItems (items : List (String × Value)) : String :=
  tupleRepr (items.map pyReprPair)

/-- `str(frozen_state)` where `frozen_state = tuple(state)`. -/
def pyReprState (st : List (List (String × Value))) : String :=
  tupleRepr (st.map pyReprItems)

/-- UTF-8 encoding of one character (`str.encode('utf-8')`). -/
def utf8Char (c : Char) : List Nat :=
  let n := c.toNat
  if n < 128 then [n]
  else if n < 2048 then [192 + n / 64, 128 + n % 64]
  else if n < 65536 then [224 + n / 4096, 128 + (n / 64) % 64, 128 + n % 64]
  else [240 + n / 262144, 128 + (n / 4096) % 64, 128 + (n / 64) % 64, 128 + n % 64]

/-- Encoding `s.encode('utf-8')` as a byte list. -/
def utf8Bytes (s : String) : List Nat :=
  (s.toList.map utf8Char).flatten

/-! #### MD5 (RFC 1321), the embedding of `hashlib.md5` -/

/-- Truncation to a 32-bit word. -/
def w32 (n : Nat) : Nat := n % 4294967296

/-- Left rotation of a 32-bit word. -/
def rotl32 (x s : Nat) : Nat :=
  w32 (Nat.lor (x <<< s) (x >>> (32 - s)))

/-- The 64 MD5 sine-derived constants. -/
def md5K : List Nat :=
  [0xd76aa478, 0xe8c7b756, 0x242070db, 0xc1bdceee,
   0xf57c0faf, 0x4787c62a, 0xa8304613, 0xfd469501,
   0x698098d8, 0x8b44f7af, 0xffff5bb1, 0x895cd7be,
   0x6b901122, 0xfd987193, 0xa679438e, 0x49b40821,
   0xf61e2562, 0xc040b340, 0x265e5a51, 0xe9b6c7aa,
   0xd62f105d, 0x02441453, 0xd8a1e681, 0xe7d3fbc8,
   0x21e1cde6, 0xc33707d6, 0xf4d50d87, 0x455a14ed,
   0xa9e3e905, 0xfcefa3f8, 0x676f02d9, 0x8d2a4c8a,
   0xfffa3942, 0x8771f681, 0x6d9d6122, 0xfde5380c,
   0xa4beea44, 0x4bdecfa9, 0xf6bb4b60, 0xbebfbc70,
   0x289b7ec6, 0xeaa127fa, 0xd4ef3085, 0x04881d05,
   0xd9d4d039, 0xe6db99e5, 0x1fa27cf8, 0xc4ac5665,
   0xf4292244, 0x432aff97, 0xab9423a7, 0xfc93a039,
   0x655b59c3, 0x8f0ccc92, 0xffeff47d, 0x85845dd1,
   0x6fa87e4f, 0xfe2ce6e0, 0xa3014314, 0x4e0811a1,
   0xf7537e82, 0xbd3af235, 0x2ad7d2bb, 0xeb86d391]

/-- The per-round shift amounts. -/
def md5S : List Nat :=
  [7, 12, 17, 22, 7, 12, 17, 22, 7, 12, 17, 22, 7, 12, 17, 22,
   5, 9, 14, 20, 5, 9, 14, 20, 5, 9, 14, 20, 5, 9, 14, 20,
   4, 11, 16, 23, 4, 11, 16, 23, 4, 11, 16, 23, 4, 11, 16, 23,
   6, 10, 15, 21, 6, 10, 15, 21, 6, 10, 15, 21, 6, 10, 15, 21]

/-- Complement within 32 bits. -/
def not32 (x : Nat) : Nat := Nat.xor x 4294967295

/-- The MD5 round mixing function for round `i`. -/
def md5F (i b c d : Nat) : Nat :=
  if i < 16 then Nat.lor (Nat.land b c) (Nat.land (not32 b) d)
  else if i < 32 then Nat.lor (Nat.land d b) (Nat.land (not32 d) c)
  else if i < 48 then Nat.xor b (Nat.xor c d)
  else Nat.xor c (Nat.lor b (not32 d))

/-- The message-word index used in round `i`. -/
def md5G (i : Nat) : Nat :=
  if i < 16 then i
  else if i < 32 then (5 * i + 1) % 16
  else if i < 48 then (3 * i + 5) % 16
  else (7 * i) % 16

/-- Little-endian byte decomposition of a number. -/
def leBytes (n count : Nat) : List Nat :=
  (List.range count).map (fun i => (n >>> (8 * i)) % 256)

/-- Assemble little-endian 32-bit words from a byte list. -/
def leWords (block : List Nat) : List Nat :=
  (List.range (block.length / 4)).map (fun i =>
    block.getD (4 * i) 0 + 256 * block.getD (4 * i + 1) 0 +
      65536 * block.getD (4 * i + 2) 0 + 16777216 * block.getD (4 * i + 3) 0)

/-- MD5 padding: append `0x80`, zeros to 56 mod 64, then the bit length as
8 little-endian bytes. -/
def md5pad (msg : List Nat) : List Nat :=
  msg ++ 128 :: List.replicate ((119 - msg.length % 64) % 64) 0
      ++ leBytes ((8 * msg.length) % 18446744073709551616) 8

/-- One MD5 round operation on the register quadruple. -/
def md5Round (M : List Nat) (st : Nat × Nat × Nat × Nat) (i : Nat) :
    Nat × Nat × Nat × Nat :=
  let f := w32 (st.1 + md5F i st.2.1 st.2.2.1 st.2.2.2 + md5K.getD i 0 +
      M.getD (md5G i) 0)
  (st.2.2.2, w32 (st.2.1 + rotl32 f (md5S.getD i 0)), st.2.1, st.2.2.1)

/-- Process one 64-byte block. -/
def md5Block (st : Nat × Nat × Nat × Nat) (block : List Nat) :
    Nat × Nat × Nat × Nat :=
  let M := leWords block
  let r := (List.range 64).foldl (md5Round M) st
  (w32 (st.1 + r.1), w32 (st.2.1 + r.2.1), w32 (st.2.2.1 + r.2.2.1),
    w32 (st.2.2.2 + r.2.2.2))

/-- The four MD5 state words of a message's digest. -/
def md5words (msg : List Nat) : Nat × Nat × Nat × Nat :=
  (List.range ((md5pad msg).length / 64)).foldl
    (fun st i => md5Block st (((md5pad msg).drop (64 * i)).take 64))
    (0x67452301, 0xefcdab89, 0x98badcfe, 0x10325476)

/-- One lowercase hex digit. -/
def hexDigit (n : Nat) : Char :=
  if n < 10 then Char.ofNat (48 + n) else Char.ofNat (87 + n)

/-- Two lowercase hex digits of a byte. -/
def byteHexChars (b : Nat) : List Char :=
  [hexDigit (b / 16), hexDigit (b % 16)]

/-- The `hexdigest()` of the four state words. -/
def wordsHex (w : Nat × Nat × Nat × Nat) : String :=
  String.mk (((leBytes w.1 4 ++ leBytes w.2.1 4 ++ leBytes w.2.2.1 4 ++
      leBytes w.2.2.2 4).map byteHexChars).flatten)

/-- Embedding of `hashlib.md5(msg).hexdigest()`. -/
def md5hex (msg : List Nat) : String :=
  wordsHex (md5words msg)

/-- The fingerprint of a canonical state: the hash-to-bytes pipeline of
`do_step` applied to the already-canonicalized `state` list. -/
def fpOfCanon (st : List (List (String × Value))) : List Nat :=
  utf8Bytes (md5hex (utf8Bytes (pyReprState st)))

/-- The `state_hash` as computed by `do_step` from the current entity store:
canonicalize, serialize with `str`, UTF-8 encode, MD5, hex digest, encode. -/
def fingerprint (ents : Store) : List Nat :=
  fpOfCanon (canonState ents)

/-! ### System and Filter capabilities -/

/-- The criteria check of `System.step`:
`all([comp in ent for comp in self.criteria])`. -/
def matchesCriteria (criteria : List String) (ent : Entity) : Bool :=
  criteria.all (fun comp => hasKey ent comp)

/-- The list comprehension of `System.step`: the entities of the store (in
iteration order) containing every criteria key. -/
def stepSelect (criteria : List String) (ents : Store) : List Entity :=
  (ents.map Prod.snd).filter (fun ent => matchesCriteria criteria ent)

/-- A `System`: its fixed `criteria` and its `do_step_all` override point.
`do_step_all` receives the current store besides the matching group because
in-place mutation of group members, and manager-back-reference systems such
as `DeletionSystem`, act on the store; a raised exception is `Option.none`. -/
structure Sys where
  criteria : List String
  do_step_all : Store → List Entity → Option Store

/-- Embedding of `System.step(ents)`: narrow to the criteria group, then dispatch to
`do_step_all`. -/
def Sys.step (sys : Sys) (ents : Store) : Option Store :=
  sys.do_step_all ents (stepSelect sys.criteria ents)

/-- The base class's `do_step_all` with an overridden `do_step_individual`
`f`: every group member is mutated in place by `f`, which in the pure store
view replaces each criteria-matching entity with its stepped version, all
other entries untouched. -/
def defaultDoStepAll (criteria : List String) (f : Entity → Entity) :
    Store → List Entity → Option Store :=
  fun ents _group =>
    Option.some (ents.map (fun kv =>
      if matchesCriteria criteria kv.2 then (kv.1, f kv.2) else kv))

/-- A concrete `System` subclass overriding only `do_step_individual`. -/
def mkSystem (criteria : List String) (f : Entity → Entity) : Sys :=
  ⟨criteria, defaultDoStepAll criteria f⟩

/-- Python truthiness of a `do_step_individual`-style per-entity result used
by `Filter.apply`'s `if result`: `None` is falsy, an empty dict is falsy. -/
def pyTruthyResult : Option Entity → Bool
  | Option.none => false
  | Option.some e => !e.isEmpty

/-- Evaluating `result.id` on a filter match result (`Entity.__getattr__`,
i.e. `dict.get`): `None` when the key is absent. -/
def resultId : Option Entity → Value
  | Option.none => Value.none
  | Option.some e => Entity.getattr e "id"

/-- A `Filter`: its `apply_individual` override point, returning the
matching entity (truthy) or `None`. The base class's `apply_individual` is
`pass`, i.e. always `None`. -/
structure Filter where
  apply_individual : Entity → Criteria → Option Entity

/-- The base `Filter` whose `apply_individual` is `pass` (returns `None`). -/
def baseFilter : Filter :=
  ⟨fun _ _ => Option.none⟩

/-- Embedding of `Filter.apply`: `[result.id for result in [self.apply_individual(ent,
criteria) for id, ent in ents.items()] if result]`. -/
def Filter.apply (fl : Filter) (ents : Store) (criteria : Criteria) : List Value :=
  (((ents.map (fun kv => fl.apply_individual kv.2 criteria)).filter
      pyTruthyResult).map resultId)

/-- A `DrawSystem` carries the same static criteria; its rendering output
goes to an external surface and is out of this core's scope. -/
structure DrawSys where
  criteria : List String

/-! ### EntityManager -/

/-- `EntityManager` state: the id counter, the entity store, the ordered
system and draw-system lists, and the named filter registry. -/
structure EntityManager where
  ent_count : Nat
  ents : Store
  systems : List Sys
  draw_systems : List DrawSys
  filters : List (String × Filter)

/-- Embedding of `EntityManager.__init__`: each optional collection defaults to empty
when it is `None` (an empty collection passed in is falsy and is replaced by
a fresh empty one, which is the same value here); `ent_count` starts at 0. -/
def EntityManager.init (ents : Option Store) (systems : Option (List Sys))
    (draw_systems : Option (List DrawSys))
    (filters : Option (List (String × Filter))) : EntityManager :=
  { ent_count := 0
    ents := ents.getD []
    systems := systems.getD []
    draw_systems := draw_systems.getD []
    filters := filters.getD [] }

/-- The system loop of `do_step`: run each system in list order on the
shared store, an exception aborting the tick. -/
def runSystems : List Sys → Store → Option Store
  | [], ents => Option.some ents
  | sys :: rest, ents => (sys.step ents).bind (runSystems rest)

/-- Embedding of `EntityManager.do_step`: run every system in registration order over the
entity store, then hash the resulting state for integrity and return the
hash (with the mutated manager). -/
def EntityManager.do_step (m : EntityManager) : Option (List Nat × EntityManager) :=
  (runSystems m.systems m.ents).map
    (fun ents' => (fingerprint ents', { m with ents := ents' }))

/-- Embedding of `EntityManager.add_ent`: assign `id = self.ent_count`, set `ent.id = id`
(mutating the caller's entity in place; the updated entity is returned as the
caller's post-call view of the same object), store it under `id`, increment
the counter. The function body has no `return`, so the call yields `None`. -/
def EntityManager.add_ent (m : EntityManager) (ent : Entity) :
    EntityManager × Entity × Value :=
  let id := m.ent_count
  let ent' := dsetE ent "id" (Value.int (Int.ofNat id))
  ({ m with ents := dictSet m.ents id ent', ent_count := m.ent_count + 1 },
    ent', Value.none)

/-- Embedding of `EntityManager.filter`: look up the named filter (`KeyError` when the
name is unregistered) and delegate to its `apply`. -/
def EntityManager.filter (m : EntityManager) (filter_id : String)
    (kwargs : Criteria) : Option (List Value) :=
  ((m.filters.find? (fun kv => kv.1 == filter_id)).map
    (fun kv => kv.2.apply m.ents kwargs))

/-- Python truthiness of the optional `index` argument: `None` is falsy and
so is the integer `0`. -/
def pyTruthyIdx : Option Nat → Bool
  | Option.none => false
  | Option.some n => n != 0

/-- Python `list.insert(i, x)` for a non-negative index (clamps past the
end). -/
def listInsert (l : List α) (i : Nat) (x : α) : List α :=
  l.take i ++ x :: l.drop i

/-- Embedding of `EntityManager.add_draw_system`: `if index:` insert, else append. -/
def EntityManager.add_draw_system (m : EntityManager) (s : DrawSys)
    (index : Option Nat) : EntityManager :=
  if pyTruthyIdx index then
    { m with draw_systems := listInsert m.draw_systems (index.getD 0) s }
  else
    { m with draw_systems := m.draw_systems ++ [s] }

/-- Embedding of `EntityManager.add_system`: `if index:` insert, else append. -/
def EntityManager.add_system (m : EntityManager) (s : Sys)
    (index : Option Nat) : EntityManager :=
  if pyTruthyIdx index then
    { m with systems := listInsert m.systems (index.getD 0) s }
  else
    { m with systems := m.systems ++ [s] }

/-- Embedding of `EntityManager.__getitem__`: `self.ents[id]`, a `KeyError` when absent. -/
def EntityManager.getitem (m : EntityManager) (id : Nat) : Option Entity :=
  sget m.ents id

/-! ### DeletionSystem -/

/-- Python `del self.mgr.ents[key]` where `key` is the value of an entity's
`id` component: an int (or a bool, which Python treats as the int 0 or 1)
deletes the store entry with that integer key; any other value, or an absent
key, raises `KeyError`. -/
def storeDelVal (s : Store) (v : Value) : Option Store :=
  let key? : Option Int :=
    match v with
    | Value.int i => Option.some i
    | Value.bool b => Option.some (if b then 1 else 0)
    | _ => Option.none
  match key? with
  | Option.none => Option.none
  | Option.some i =>
      if s.any (fun kv => (kv.1 : Int) == i) then
        Option.some (s.filter (fun kv => !((kv.1 : Int) == i)))
      else
        Option.none

/-- Embedding of `DeletionSystem.do_step_all`: first collect every matching entity's
`id`, and only then delete each collected id from the manager's store. -/
def deletionDoStepAll (store : Store) (ents : List Entity) : Option Store :=
  let to_delete := ents.map (fun ent => Entity.getattr ent "id")
  to_delete.foldlM storeDelVal store

/-- Embedding of `DeletionSystem`: criteria `['delete', 'id']`, the batch step above;
its constructor's manager back-reference is the store argument of
`do_step_all`. -/
def deletionSystem : Sys :=
  ⟨["delete", "id"], deletionDoStepAll⟩

/-! ### Interleavings of registrations and deletions (for the id claims) -/

/-- One mutation of the manager's store: a registration (`add_ent`) or a
deletion (`del mgr.ents[k]`, as `DeletionSystem` performs). -/
inductive Op where
  | reg (e : Entity) : Op
  | del (k : Nat) : Op

/-- One step of an interleaving, also logging the assigned and removed ids:
`reg` runs `add_ent` (always succeeds, logging the id it assigns), `del`
removes a present key and raises `KeyError` on an absent one. -/
def applyOp (st : EntityManager × List Nat × List Nat) (op : Op) :
    Option (EntityManager × List Nat × List Nat) :=
  match op with
  | Op.reg e =>
      Option.some ((EntityManager.add_ent st.1 e).1,
        st.2.1 ++ [st.1.ent_count], st.2.2)
  | Op.del k =>
      if k ∈ st.1.ents.map Prod.fst then
        Option.some
          ({ st.1 with ents := st.1.ents.filter (fun kv => !(kv.1 == k)) },
            st.2.1, st.2.2 ++ [k])
      else Option.none

/-- Run an interleaving of registrations and deletions. -/
def runOps :
    EntityManager × List Nat × List Nat → List Op →
      Option (EntityManager × List Nat × List Nat)
  | st, [] => Option.some st
  | st, op :: rest => (applyOp st op).bind (fun st' => runOps st' rest)

/-- A default-constructed manager (every collection empty). -/
def mgr0 : EntityManager :=
  EntityManager.init Option.none Option.none Option.none Option.none

/-- A concrete interleaving: two registrations, a deletion, a registration. -/
def opsExample : List Op :=
  [Op.reg [("a", Value.int 7)], Op.reg [], Op.del 0, Op.reg [("b", Value.int 8)]]

/-- The state `opsExample` reaches from a default-constructed manager. -/
def stExample : EntityManager × List Nat × List Nat :=
  ({ ent_count := 3,
     ents := [(1, [("id", Value.int 1)]),
              (2, [("b", Value.int 8), ("id", Value.int 2)])],
     systems := [], draw_systems := [], filters := [] },
    [0, 1, 2], [0])

/-! ### Concrete managers used by the fingerprint claims -/

/-- A family of one-entity managers (no systems) whose single component
`x` holds the integer `n`. -/
def mkIntMgr (n : Nat) : EntityManager :=
  { ent_count := 1, ents := [(0, [("x", Value.int (Int.ofNat n))])],
    systems := [], draw_systems := [], filters := [] }

/-- A manager whose only entity binds `a` then `b`. -/
def mgrA : EntityManager :=
  { ent_count := 1, ents := [(0, [("a", Value.int 1), ("b", Value.int 2)])],
    systems := [], draw_systems := [], filters := [] }

/-- A manager whose only entity binds `b` then `a` (same canonical state as
`mgrA` after sorting by key). -/
def mgrB : EntityManager :=
  { ent_count := 1, ents := [(0, [("b", Value.int 2), ("a", Value.int 1)])],
    systems := [], draw_systems := [], filters := [] }

/-- A system whose batch step leaves the store untouched. -/
def idSys : Sys :=
  ⟨[], fun st _ => Option.some st⟩

/-- A manager with one entity and one non-mutating system. -/
def mgrC : EntityManager :=
  { ent_count := 1, ents := [(0, [("x", Value.bool true)])],
    systems := [idSys], draw_systems := [], filters := [] }

/-! ## Helper lemmas -/

theorem sget_dictSet_self (s : Store) (k : Nat) (v : Entity) :
    sget (dictSet s k v) k = Option.some v := by
  induction s with
  | nil => simp [dictSet, sget]
  | cons kv rest ih =>
      by_cases h : kv.1 = k
      · simp [dictSet, h, sget]
      · simpa [dictSet, h, sget, beq_eq_false_iff_ne.mpr h] using ih

theorem lookupE_dsetE_self (e : Entity) (k : String) (v : Value) :
    lookupE (dsetE e k v) k = Option.some v := by
  induction e with
  | nil => simp [dsetE, lookupE]
  | cons kv rest ih =>
      by_cases h : kv.1 = k
      · simp [dsetE, h, lookupE]
      · simpa [dsetE, h, lookupE, beq_eq_false_iff_ne.mpr h] using ih

theorem lookupE_dsetE_ne (e : Entity) (k k' : String) (v : Value) (h : k' ≠ k) :
    lookupE (dsetE e k v) k' = lookupE e k' := by
  have hkk : (k == k') = false := beq_eq_false_iff_ne.mpr (Ne.symm h)
  induction e with
  | nil => simp [dsetE, lookupE, hkk]
  | cons kv rest ih =>
      by_cases hk : kv.1 = k
      · have hstep : dsetE (kv :: rest) k v = (k, v) :: rest := by
          simp [dsetE, hk]
        have hb : (kv.1 == k') = false := by rw [hk]; exact hkk
        rw [hstep]
        simp [lookupE, hkk, hb]
      · have hstep : dsetE (kv :: rest) k v = kv :: dsetE rest k v := by
          simp [dsetE, hk]
        rw [hstep]
        by_cases hk' : kv.1 = k'
        · simp [lookupE, hk']
        · simpa [lookupE, beq_eq_false_iff_ne.mpr hk'] using ih

theorem hasKey_of_lookupE (e : Entity) (k : String) (v : Value)
    (h : lookupE e k = Option.some v) : hasKey e k = true := by
  induction e with
  | nil => simp [lookupE] at h
  | cons kv rest ih =>
      by_cases hk : kv.1 = k
      · simp [hasKey, hk]
      · rw [lookupE] at h
        rw [List.find?_cons_of_neg _ (by simpa using hk)] at h
        have := ih (by simpa [lookupE] using h)
        simpa [hasKey] using Or.inr (by simpa [hasKey] using this)

theorem mem_insertByKey (x p : String × Value) (l : List (String × Value)) :
    x ∈ insertByKey p l ↔ x = p ∨ x ∈ l := by
  induction l with
  | nil => simp [insertByKey]
  | cons q rest ih =>
      by_cases h : strLt p.1 q.1
      · simp [insertByKey, h]
      · simp [insertByKey, h, ih]
        tauto

theorem mem_sortItems (x : String × Value) (e : Entity) :
    x ∈ e → x ∈ sortItems e := by
  induction e with
  | nil => intro h; cases h
  | cons p rest ih =>
      intro h
      have hstep : sortItems (p :: rest) = insertByKey p (sortItems rest) := rfl
      rw [hstep, mem_insertByKey]
      rcases List.mem_cons.mp h with h | h
      · exact Or.inl h
      · exact Or.inr (ih h)

theorem mem_dsetE_self (e : Entity) (k : String) (v : Value) :
    (k, v) ∈ dsetE e k v := by
  induction e with
  | nil => simp [dsetE]
  | cons kv rest ih =>
      by_cases h : kv.1 = k
      · simp [dsetE, h]
      · simp [dsetE, h]
        exact Or.inr ih

/-! ## Claims -/

/-- C2: `add_system` (and `add_draw_system`) with no index appends; the
claim also says an explicit index 0 inserts at the front, but the code's
`if index:` treats the integer 0 as falsy, so index 0 behaves exactly like
no index and appends: at the failing input (a manager already holding one
system), adding with index 0 yields `[existing, added]`, not
`[added, existing]`. -/
theorem add_system_index_zero_bug :
    (∀ (m : EntityManager) (s : Sys),
        EntityManager.add_system m s (Option.some 0) = EntityManager.add_system m s Option.none
        ∧ (EntityManager.add_system m s Option.none).systems = m.systems ++ [s])
    ∧ (∀ (m : EntityManager) (d : DrawSys),
        EntityManager.add_draw_system m d (Option.some 0)
          = EntityManager.add_draw_system m d Option.none
        ∧ (EntityManager.add_draw_system m d Option.none).draw_systems
          = m.draw_systems ++ [d])
    ∧ (EntityManager.add_system
        { ent_count := 0, ents := [], systems := [mkSystem ["existing"] (fun ent => ent)],
          draw_systems := [], filters := [] }
        (mkSystem ["added"] (fun ent => ent)) (Option.some 0)).systems
      = [mkSystem ["existing"] (fun ent => ent), mkSystem ["added"] (fun ent => ent)] := by
  refine ⟨fun m s => ⟨?_, ?_⟩, fun m d => ⟨?_, ?_⟩, rfl⟩
  · simp [EntityManager.add_system, pyTruthyIdx]
  · simp [EntityManager.add_system, pyTruthyIdx]
  · simp [EntityManager.add_draw_system, pyTruthyIdx]
  · simp [EntityManager.add_draw_system, pyTruthyIdx]

/-- C3 counterexample: `add_ent` does not return the assigned id to the
caller. Registering a first entity on a fresh manager assigns id 0, but the
call's return value is Python `None`, not the id 0. -/
theorem add_ent_return_ce :
    (EntityManager.add_ent
        (EntityManager.init Option.none Option.none Option.none Option.none)
        [("hp", Value.int 5)]).2.2 = Value.none
    ∧ Value.none ≠ Value.int 0 :=
  ⟨rfl, by decide⟩

/-- C3 (amended): `add_ent` assigns the next sequential id (`ent_count`,
which it then increments), stores the entity in the store under that id, and
returns `None`; the assigned id reaches the caller only through the entity's
mutated `id` component, not through the return value. -/
theorem add_ent_amended (m : EntityManager) (e : Entity) :
    (EntityManager.add_ent m e).1.ent_count = m.ent_count + 1
    ∧ sget (EntityManager.add_ent m e).1.ents m.ent_count
        = Option.some ((EntityManager.add_ent m e).2.1)
    ∧ Entity.getattr ((EntityManager.add_ent m e).2.1) "id"
        = Value.int (Int.ofNat m.ent_count)
    ∧ (EntityManager.add_ent m e).2.2 = Value.none := by
  refine ⟨rfl, ?_, ?_, rfl⟩
  · exact sget_dictSet_self m.ents m.ent_count _
  · simp [EntityManager.add_ent, Entity.getattr, lookupE_dsetE_self]

/-- C9: attribute-style access on an entity (`__getattr__ = dict.get`)
returns the absent value `None` for a key not present in the entity, and the
stored component value for a present key. -/
theorem getattr_optional :
    (∀ (e : Entity) (k : String), hasKey e k = false → Entity.getattr e k = Value.none)
    ∧ (∀ (e₁ e₂ : Entity) (k : String) (v : Value), (∀ p ∈ e₁, p.1 ≠ k) →
        Entity.getattr (e₁ ++ (k, v) :: e₂) k = v) := by
  constructor
  · intro e k h
    have hall : ∀ kv ∈ e, ¬(kv.1 == k) = true := by
      simpa [hasKey, List.any_eq_false] using h
    simp [Entity.getattr, lookupE, List.find?_eq_none.mpr hall]
  · intro e₁ e₂ k v h
    induction e₁ with
    | nil => simp [Entity.getattr, lookupE]
    | cons p rest ih =>
        have hp : ¬(p.1 == k) = true := by
          simpa using h p (by simp)
        have hrest : ∀ q ∈ rest, q.1 ≠ k := fun q hq => h q (by simp [hq])
        have ih' := ih hrest
        simp only [Entity.getattr, lookupE, List.cons_append] at ih' ⊢
        have hfind : List.find? (fun kv => kv.1 == k) (p :: (rest ++ (k, v) :: e₂))
            = List.find? (fun kv => kv.1 == k) (rest ++ (k, v) :: e₂) :=
          List.find?_cons_of_neg _ hp
        rw [hfind]
        exact ih'

/-- C9 witness: on the concrete entity `{pos: 3}`, access to the absent
key `vel` yields `None` and access to `pos` yields 3. -/
theorem getattr_optional_witness :
    Entity.getattr [("pos", Value.int 3)] "vel" = Value.none
    ∧ Entity.getattr ([] ++ ("pos", Value.int 3) :: []) "pos" = Value.int 3 :=
  ⟨getattr_optional.1 [("pos", Value.int 3)] "vel" (by decide),
    getattr_optional.2 [] [] "pos" (Value.int 3) (by simp)⟩

/-- C10: registration mutates the caller's entity in place: the stored
entity under the assigned id is exactly the caller's post-call entity; that
entity carries `id` bound to the assigned id; every other component is
unchanged; and the `id` key takes part in criteria membership tests and in
the sorted-items canonicalization like any other component. -/
theorem add_ent_in_place (m : EntityManager) (e : Entity) :
    sget ((EntityManager.add_ent m e).1.ents) m.ent_count
      = Option.some ((EntityManager.add_ent m e).2.1)
    ∧ lookupE ((EntityManager.add_ent m e).2.1) "id"
      = Option.some (Value.int (Int.ofNat m.ent_count))
    ∧ (∀ k : String, k ≠ "id" →
        lookupE ((EntityManager.add_ent m e).2.1) k = lookupE e k)
    ∧ hasKey ((EntityManager.add_ent m e).2.1) "id" = true
    ∧ ("id", Value.int (Int.ofNat m.ent_count)) ∈ sortItems ((EntityManager.add_ent m e).2.1) := by
  refine ⟨sget_dictSet_self m.ents m.ent_count _, lookupE_dsetE_self e "id" _,
    fun k hk => lookupE_dsetE_ne e "id" k _ hk, ?_, ?_⟩
  · exact hasKey_of_lookupE _ _ _ (lookupE_dsetE_self e "id" _)
  · exact mem_sortItems _ _ (mem_dsetE_self e "id" _)

/-- C10 witness: registering `{hp: 5}` on a fresh manager stores the
caller's updated object under id 0, leaves `hp` unchanged, adds `id`, and
the `id` pair appears in the canonicalized item list. -/
theorem add_ent_in_place_witness :
    sget ((EntityManager.add_ent
        (EntityManager.init Option.none Option.none Option.none Option.none)
        [("hp", Value.int 5)]).1.ents) 0
      = Option.some ((EntityManager.add_ent
        (EntityManager.init Option.none Option.none Option.none Option.none)
        [("hp", Value.int 5)]).2.1)
    ∧ lookupE ((EntityManager.add_ent
        (EntityManager.init Option.none Option.none Option.none Option.none)
        [("hp", Value.int 5)]).2.1) "hp" = lookupE [("hp", Value.int 5)] "hp"
    ∧ hasKey ((EntityManager.add_ent
        (EntityManager.init Option.none Option.none Option.none Option.none)
        [("hp", Value.int 5)]).2.1) "id" = true :=
  ⟨(add_ent_in_place _ [("hp", Value.int 5)]).1,
    (add_ent_in_place _ [("hp", Value.int 5)]).2.2.1 "hp" (by decide),
    (add_ent_in_place _ [("hp", Value.int 5)]).2.2.2.1⟩

/-- C7: an indexed lookup `ecs[id]` for an id not present in the entity
store fails with a key-not-found failure (`None` result of the embedded
partial operation, modelling the raised `KeyError` that propagates to the
caller), and `filter(name, criteria)` for an unregistered name fails the
same way; the embedding is pure, so neither failing call touches the
manager state. -/
theorem lookup_failures :
    (∀ (m : EntityManager) (id : Nat), id ∉ m.ents.map Prod.fst →
        EntityManager.getitem m id = Option.none)
    ∧ (∀ (m : EntityManager) (name : String) (kwargs : Criteria),
        name ∉ m.filters.map Prod.fst →
        EntityManager.filter m name kwargs = Option.none) := by
  constructor
  · intro m id h
    have hall : ∀ kv ∈ m.ents, ¬(kv.1 == id) = true := by
      intro kv hkv hbeq
      exact h (List.mem_map.mpr ⟨kv, hkv, (beq_iff_eq.mp hbeq)⟩)
    simp [EntityManager.getitem, sget, List.find?_eq_none.mpr hall]
  · intro m name kwargs h
    have hall : ∀ kv ∈ m.filters, ¬(kv.1 == name) = true := by
      intro kv hkv hbeq
      exact h (List.mem_map.mpr ⟨kv, hkv, (beq_iff_eq.mp hbeq)⟩)
    simp [EntityManager.filter, List.find?_eq_none.mpr hall]

/-- C7 witness: looking up id 7 in a store holding only id 0 fails, and
querying the unregistered filter name `near` on a fresh manager fails. -/
theorem lookup_failures_witness :
    EntityManager.getitem
      { ent_count := 1, ents := [(0, [("hp", Value.int 5)])], systems := [],
        draw_systems := [], filters := [] } 7 = Option.none
    ∧ EntityManager.filter
      (EntityManager.init Option.none Option.none Option.none Option.none)
      "near" [] = Option.none :=
  ⟨lookup_failures.1 _ 7 (by decide), lookup_failures.2 _ "near" [] (by decide)⟩

/-- C6: `System.step` selects exactly the entities containing every
criteria key (a key-membership test), in store iteration order, and the
default `do_step_all` applies the per-entity step exactly once to each
selected entity (in the pure rendering: each matching store entry is
replaced by its stepped entity, every other entry untouched); empty
criteria select every entity. The last conjunct is the claim's example:
criteria `{A, B}` over `{A, B, C}` and `{A}` select only the former. -/
theorem system_step_selection (c : List String) (f : Entity → Entity) (store : Store) :
    Sys.step (mkSystem c f) store
      = Option.some (store.map (fun kv =>
          if matchesCriteria c kv.2 then (kv.1, f kv.2) else kv))
    ∧ (∀ e : Entity, (stepSelect c store).count e
        = if matchesCriteria c e then (store.map Prod.snd).count e else 0)
    ∧ (stepSelect c store).Sublist (store.map Prod.snd)
    ∧ stepSelect [] store = store.map Prod.snd
    ∧ stepSelect ["A", "B"]
        [(0, [("A", Value.int 1), ("B", Value.int 2), ("C", Value.int 3)]),
         (1, [("A", Value.int 1)])]
      = [[("A", Value.int 1), ("B", Value.int 2), ("C", Value.int 3)]] := by
  refine ⟨rfl, ?_, List.filter_sublist _, ?_, rfl⟩
  · intro e
    by_cases h : matchesCriteria c e
    · rw [if_pos h]
      exact List.count_filter (by simpa using h)
    · rw [if_neg h]
      rw [List.count_eq_zero]
      intro hmem
      exact h (by simpa using List.of_mem_filter hmem)
  · simp [stepSelect, matchesCriteria]

/-- C8: `Filter.apply` evaluates `apply_individual` on each store entry in
iteration order and returns `result.id` for exactly the truthy results, in
that order; in particular it returns the empty list (not a failure) when no
entity matches, and the base filter's `apply_individual` (a `pass`,
returning `None`) matches nothing. -/
theorem filter_apply_spec :
    (∀ (fl : Filter) (ents : Store) (criteria : Criteria),
        Filter.apply fl ents criteria
          = (ents.filter
              (fun kv => pyTruthyResult (fl.apply_individual kv.2 criteria))).map
              (fun kv => resultId (fl.apply_individual kv.2 criteria)))
    ∧ (∀ (fl : Filter) (ents : Store) (criteria : Criteria),
        (∀ kv ∈ ents, pyTruthyResult (fl.apply_individual kv.2 criteria) = false) →
        Filter.apply fl ents criteria = [])
    ∧ (∀ (ents : Store) (criteria : Criteria),
        Filter.apply baseFilter ents criteria = []) := by
  have key : ∀ (fl : Filter) (ents : Store) (criteria : Criteria),
      Filter.apply fl ents criteria
        = (ents.filter
            (fun kv => pyTruthyResult (fl.apply_individual kv.2 criteria))).map
            (fun kv => resultId (fl.apply_individual kv.2 criteria)) := by
    intro fl ents criteria
    simp only [Filter.apply, List.filter_map, List.map_map]
    rfl
  refine ⟨key, ?_, ?_⟩
  · intro fl ents criteria h
    rw [key]
    rw [List.filter_eq_nil_iff.mpr (by simpa using h)]
    rfl
  · intro ents criteria
    simp [Filter.apply, baseFilter, pyTruthyResult]

/-- C8 witness: a filter returning each entity itself, over a store whose
only entity is empty (hence falsy), matches nothing and yields `[]`. -/
theorem filter_apply_spec_witness :
    Filter.apply ⟨fun ent _ => Option.some ent⟩ [(0, [])] [] = [] :=
  filter_apply_spec.2.1 ⟨fun ent _ => Option.some ent⟩ [(0, [])] [] (by decide)

theorem mem_keys_dictSet (s : Store) (key : Nat) (v : Entity) (k : Nat) :
    k ∈ (dictSet s key v).map Prod.fst → k ∈ s.map Prod.fst ∨ k = key := by
  induction s with
  | nil => intro h; simpa [dictSet] using h
  | cons kv rest ih =>
      intro h
      by_cases hk : kv.1 = key
      · simp [dictSet, hk] at h
        rcases h with h | h
        · exact Or.inr h
        · exact Or.inl (by simp [h])
      · simp [dictSet, hk] at h
        rcases h with h | h
        · exact Or.inl (by simp [h])
        · rcases ih (by simpa using h) with h' | h'
          · exact Or.inl (by simp; exact Or.inr (by simpa using h'))
          · exact Or.inr h'

theorem mem_keys_filter (s : Store) (p : Nat × Entity → Bool) (k : Nat) :
    k ∈ (s.filter p).map Prod.fst → k ∈ s.map Prod.fst := by
  intro h
  obtain ⟨kv, hkv, hfst⟩ := List.mem_map.mp h
  exact List.mem_map.mpr ⟨kv, List.mem_of_mem_filter hkv, hfst⟩

theorem runOps_invariant (ops : List Op) :
    ∀ st : EntityManager × List Nat × List Nat,
      st.2.1 = List.range st.1.ent_count →
      (∀ k ∈ st.1.ents.map Prod.fst, k < st.1.ent_count) →
      (∀ k ∈ st.2.2, k < st.1.ent_count) →
      ∀ st', runOps st ops = Option.some st' →
        st'.2.1 = List.range st'.1.ent_count
        ∧ (∀ k ∈ st'.1.ents.map Prod.fst, k < st'.1.ent_count)
        ∧ (∀ k ∈ st'.2.2, k < st'.1.ent_count) := by
  induction ops with
  | nil =>
      intro st h1 h2 h3 st' h
      rw [runOps] at h
      cases h
      exact ⟨h1, h2, h3⟩
  | cons op rest ih =>
      intro st h1 h2 h3 st' h
      rw [runOps] at h
      obtain ⟨st₁, hst₁, hrest⟩ := Option.bind_eq_some.mp h
      cases op with
      | reg e =>
          rw [applyOp] at hst₁
          cases hst₁
          refine ih _ ?_ ?_ ?_ st' hrest
          · simp [EntityManager.add_ent, h1, List.range_succ]
          · intro k hk
            simp only [EntityManager.add_ent] at hk
            rcases mem_keys_dictSet _ _ _ _ hk with h' | h'
            · exact Nat.lt_succ_of_lt (h2 k h')
            · rw [h']
              exact Nat.lt_succ_self _
          · intro k hk
            exact Nat.lt_succ_of_lt (h3 k hk)
      | del k =>
          rw [applyOp] at hst₁
          by_cases hc : k ∈ st.1.ents.map Prod.fst
          · rw [if_pos hc] at hst₁
            cases hst₁
            refine ih _ ?_ ?_ ?_ st' hrest
            · exact h1
            · intro k' hk'
              exact h2 k' (mem_keys_filter _ _ _ hk')
            · intro k' hk'
              rcases List.mem_append.mp hk' with h' | h'
              · exact h3 k' h'
              · simpa [List.mem_singleton.mp h'] using h2 k hc
          · rw [if_neg hc] at hst₁
            cases hst₁

/-- C4 counterexample: a manager may be constructed (per the source's
`__init__` and spec section 6) with a pre-built entity store, while
`ent_count` always starts at 0; on such a manager the first registration
assigns id 0 even though id 0 is already present in the store, overwriting
the existing entity rather than taking a fresh id. -/
theorem id_reuse_seeded_ce :
    (0 : Nat) ∈ (EntityManager.init (Option.some [(0, [("old", Value.int 1)])])
        Option.none Option.none Option.none).ents.map Prod.fst
    ∧ Entity.getattr
        (EntityManager.add_ent
          (EntityManager.init (Option.some [(0, [("old", Value.int 1)])])
            Option.none Option.none Option.none)
          [("new", Value.int 2)]).2.1 "id" = Value.int 0
    ∧ sget (EntityManager.add_ent
          (EntityManager.init (Option.some [(0, [("old", Value.int 1)])])
            Option.none Option.none Option.none)
          [("new", Value.int 2)]).1.ents 0
      = Option.some [("new", Value.int 2), ("id", Value.int 0)] :=
  ⟨by decide, rfl, rfl⟩

/-- C4 (amended): starting from a default-constructed manager (empty
store), for every interleaving of registrations and deletions the assigned
ids are `0, 1, 2, ...` (the log equals `List.range ent_count`, so ids start
at 0 and increase by exactly 1 per registration), the next registration
appends exactly `ent_count` to that log, and that id is neither currently
present in the store nor among the previously removed ids. -/
theorem ids_fresh_monotone (ops : List Op)
    (st : EntityManager × List Nat × List Nat)
    (h : runOps (mgr0, [], []) ops = Option.some st) :
    st.2.1 = List.range st.1.ent_count
    ∧ (∀ e : Entity, (applyOp st (Op.reg e)).map (fun st' => st'.2.1)
        = Option.some (st.2.1 ++ [st.1.ent_count]))
    ∧ st.1.ent_count ∉ st.1.ents.map Prod.fst
    ∧ st.1.ent_count ∉ st.2.2 := by
  have inv := runOps_invariant ops (mgr0, [], [])
    (by simp [mgr0, EntityManager.init]) (by simp [mgr0, EntityManager.init])
    (by simp) st h
  refine ⟨inv.1, fun e => by simp [applyOp], fun hmem => ?_, fun hmem => ?_⟩
  · exact absurd (inv.2.1 _ hmem) (lt_irrefl _)
  · exact absurd (inv.2.2 _ hmem) (lt_irrefl _)

/-- C4 witness: on the concrete interleaving `opsExample` (register,
register, delete id 0, register) the assigned ids are `[0, 1, 2]` and the
next id 3 is neither in the store nor among the removed ids. -/
theorem ids_fresh_monotone_witness :
    stExample.2.1 = List.range stExample.1.ent_count
    ∧ stExample.1.ent_count ∉ stExample.1.ents.map Prod.fst
    ∧ stExample.1.ent_count ∉ stExample.2.2 :=
  ⟨(ids_fresh_monotone opsExample stExample rfl).1,
    (ids_fresh_monotone opsExample stExample rfl).2.2.1,
    (ids_fresh_monotone opsExample stExample rfl).2.2.2⟩

theorem delFold (ks : List Nat) :
    ∀ s : Store, ks.Nodup → (∀ k ∈ ks, k ∈ s.map Prod.fst) →
      List.foldlM storeDelVal s (ks.map (fun k => Value.int (Int.ofNat k)))
        = Option.some (s.filter (fun kv => !(ks.contains kv.1))) := by
  induction ks with
  | nil =>
      intro s _ _
      simp
  | cons k ks ih =>
      intro s hnd hmem
      obtain ⟨kv0, hkv0, hfst0⟩ := List.mem_map.mp (hmem k (by simp))
      have hany : s.any (fun kv => (kv.1 : Int) == (Int.ofNat k)) = true :=
        List.any_eq_true.mpr ⟨kv0, hkv0, by simp [hfst0]⟩
      have hstep : storeDelVal s (Value.int (Int.ofNat k))
          = Option.some (s.filter (fun kv => !((kv.1 : Int) == (Int.ofNat k)))) := by
        simp [storeDelVal, hany]
        refine ⟨kv0.2, ?_⟩
        rw [← hfst0]
        simpa using hkv0
      rw [List.map_cons, List.foldlM_cons, hstep]
      have hconv : s.filter (fun kv => !((kv.1 : Int) == (Int.ofNat k)))
          = s.filter (fun kv => !(kv.1 == k)) := by
        apply List.filter_congr
        intro kv _
        by_cases h : kv.1 = k
        · simp [h]
        · have h1 : ((kv.1 : Int) == (Int.ofNat k)) = false :=
            beq_eq_false_iff_ne.mpr (fun hh => h (Int.ofNat.inj hh))
          have h2 : (kv.1 == k) = false := beq_eq_false_iff_ne.mpr h
          rw [h1, h2]
      have hnd' := (List.nodup_cons.mp hnd).2
      have hknotin := (List.nodup_cons.mp hnd).1
      have hmem' : ∀ k' ∈ ks, k' ∈ (s.filter (fun kv => !(kv.1 == k))).map Prod.fst := by
        intro k' hk'
        obtain ⟨kv, hkv, hfst⟩ := List.mem_map.mp (hmem k' (by simp [hk']))
        refine List.mem_map.mpr ⟨kv, List.mem_filter.mpr ⟨hkv, ?_⟩, hfst⟩
        have hne : kv.1 ≠ k := by
          rw [hfst]
          intro hh
          exact hknotin (hh ▸ hk')
        simp [beq_eq_false_iff_ne.mpr hne]
      show (Option.some (s.filter (fun kv => !((kv.1 : Int) == (Int.ofNat k))))).bind _ = _
      rw [hconv]
      simp only [Option.some_bind]
      rw [ih _ hnd' hmem']
      congr 1
      rw [List.filter_filter]
      apply List.filter_congr
      intro kv _
      have hbd : (kv.1 == k) = decide (kv.1 = k) := by
        by_cases h : kv.1 = k <;> simp [h]
      simp [hbd, Bool.not_or, Bool.and_comm]

/-- C5: `DeletionSystem`, in one step over a store with distinct keys whose
criteria-matching entities carry their own store key in the `id` component,
first collects the ids of exactly the entities containing both the `delete`
and `id` keys and then removes those entries from the manager's store; every
other entry survives, in order, with all components unchanged. -/
theorem deletion_system_spec (store : Store)
    (hnd : (store.map Prod.fst).Nodup)
    (hid : ∀ kv ∈ store, matchesCriteria ["delete", "id"] kv.2 = true →
        Entity.getattr kv.2 "id" = Value.int (Int.ofNat kv.1)) :
    Sys.step deletionSystem store
      = Option.some (store.filter
          (fun kv => !(matchesCriteria ["delete", "id"] kv.2))) := by
  have hids : (stepSelect ["delete", "id"] store).map (fun ent => Entity.getattr ent "id")
      = ((store.filter (fun kv => matchesCriteria ["delete", "id"] kv.2)).map Prod.fst).map
          (fun k => Value.int (Int.ofNat k)) := by
    have hsel : stepSelect ["delete", "id"] store
        = (store.filter (fun kv => matchesCriteria ["delete", "id"] kv.2)).map Prod.snd := by
      simp only [stepSelect, List.filter_map]
      rfl
    rw [hsel, List.map_map, List.map_map]
    apply List.map_congr_left
    intro kv hkv
    have h1 := List.mem_filter.mp hkv
    simpa using hid kv h1.1 (by simpa using h1.2)
  have hknd : ((store.filter
      (fun kv => matchesCriteria ["delete", "id"] kv.2)).map Prod.fst).Nodup :=
    List.Nodup.sublist (List.Sublist.map Prod.fst (List.filter_sublist store)) hnd
  have hkmem : ∀ k ∈ (store.filter
      (fun kv => matchesCriteria ["delete", "id"] kv.2)).map Prod.fst,
      k ∈ store.map Prod.fst :=
    fun k hk => mem_keys_filter _ _ _ hk
  rw [show Sys.step deletionSystem store
      = List.foldlM storeDelVal store
        ((stepSelect ["delete", "id"] store).map (fun ent => Entity.getattr ent "id"))
      from rfl]
  rw [hids, delFold _ store hknd hkmem]
  congr 1
  apply List.filter_congr
  intro kv hkv
  by_cases hm : matchesCriteria ["delete", "id"] kv.2
  · have hin : kv.1 ∈ (store.filter
        (fun kv => matchesCriteria ["delete", "id"] kv.2)).map Prod.fst :=
      List.mem_map.mpr ⟨kv, List.mem_filter.mpr ⟨hkv, by simpa using hm⟩, rfl⟩
    have hc : ((store.filter
        (fun kv => matchesCriteria ["delete", "id"] kv.2)).map Prod.fst).contains kv.1
        = true := List.elem_iff.mpr hin
    rw [hc, hm]
  · have hnotin : kv.1 ∉ (store.filter
        (fun kv => matchesCriteria ["delete", "id"] kv.2)).map Prod.fst := by
      intro hin
      obtain ⟨kv', hkv', hfst⟩ := List.mem_map.mp hin
      have h1 := List.mem_filter.mp hkv'
      have hkveq : kv' = kv := List.inj_on_of_nodup_map hnd h1.1 hkv hfst
      exact hm (by simpa [hkveq] using h1.2)
    have hc : ((store.filter
        (fun kv => matchesCriteria ["delete", "id"] kv.2)).map Prod.fst).contains kv.1
        = false := by
      simpa using hnotin
    rw [hc]
    simp [Bool.eq_false_iff.mpr hm]

/-- C5 witness: the claim's example. Entities `{id:1, delete:true}`,
`{id:2}`, `{id:3, delete:true}` in the store: one deletion step removes
exactly ids 1 and 3 and leaves id 2 intact with unchanged components. -/
theorem deletion_system_spec_witness :
    Sys.step deletionSystem
      [(1, [("id", Value.int 1), ("delete", Value.bool true)]),
       (2, [("id", Value.int 2)]),
       (3, [("id", Value.int 3), ("delete", Value.bool true)])]
      = Option.some [(2, [("id", Value.int 2)])] := by
  have h := deletion_system_spec
    [(1, [("id", Value.int 1), ("delete", Value.bool true)]),
     (2, [("id", Value.int 2)]),
     (3, [("id", Value.int 3), ("delete", Value.bool true)])]
    (by decide) (by decide)
  simpa using h

theorem w32_lt (n : Nat) : w32 n < 4294967296 :=
  Nat.mod_lt n (by norm_num)

theorem md5Block_lt (st : Nat × Nat × Nat × Nat) (blk : List Nat) :
    (md5Block st blk).1 < 4294967296 ∧ (md5Block st blk).2.1 < 4294967296
    ∧ (md5Block st blk).2.2.1 < 4294967296 ∧ (md5Block st blk).2.2.2 < 4294967296 :=
  ⟨w32_lt _, w32_lt _, w32_lt _, w32_lt _⟩

theorem foldl_md5Block_lt (l : List Nat) (g : Nat → List Nat) :
    ∀ st : Nat × Nat × Nat × Nat,
      st.1 < 4294967296 → st.2.1 < 4294967296 →
      st.2.2.1 < 4294967296 → st.2.2.2 < 4294967296 →
      (l.foldl (fun s i => md5Block s (g i)) st).1 < 4294967296
      ∧ (l.foldl (fun s i => md5Block s (g i)) st).2.1 < 4294967296
      ∧ (l.foldl (fun s i => md5Block s (g i)) st).2.2.1 < 4294967296
      ∧ (l.foldl (fun s i => md5Block s (g i)) st).2.2.2 < 4294967296 := by
  induction l with
  | nil => intro st h1 h2 h3 h4; exact ⟨h1, h2, h3, h4⟩
  | cons a l ih =>
      intro st h1 h2 h3 h4
      have hb := md5Block_lt st (g a)
      simpa [List.foldl_cons] using ih (md5Block st (g a)) hb.1 hb.2.1 hb.2.2.1 hb.2.2.2

theorem md5words_lt (msg : List Nat) :
    (md5words msg).1 < 4294967296 ∧ (md5words msg).2.1 < 4294967296
    ∧ (md5words msg).2.2.1 < 4294967296 ∧ (md5words msg).2.2.2 < 4294967296 :=
  foldl_md5Block_lt (List.range ((md5pad msg).length / 64))
    (fun i => ((md5pad msg).drop (64 * i)).take 64) _
    (by norm_num) (by norm_num) (by norm_num) (by norm_num)

theorem runSystems_id (l : List Sys) :
    ∀ ents : Store,
      (∀ sys ∈ l, ∀ (st : Store) (g : List Entity),
        sys.do_step_all st g = Option.some st) →
      runSystems l ents = Option.some ents := by
  induction l with
  | nil => intro ents _; rfl
  | cons sys rest ih =>
      intro ents h
      rw [runSystems]
      rw [show Sys.step sys ents = Option.some ents from h sys (by simp) ents _]
      simp only [Option.some_bind]
      exact ih ents (fun s hs => h s (by simp [hs]))

/-- C1 counterexample: the fingerprint is not equal "if and only if" the
canonicalized state is equal. The digest has a finite range (four 32-bit
words), while the canonicalized states are infinitely many, so two ticks
over distinct canonical states must collide; the equivalence direction
"equal fingerprint implies equal canonical state" is therefore false. -/
theorem fingerprint_iff_ce :
    ¬ (∀ (m1 m2 : EntityManager) (r1 r2 : List Nat × EntityManager),
        EntityManager.do_step m1 = Option.some r1 →
        EntityManager.do_step m2 = Option.some r2 →
        (r1.1 = r2.1 ↔ canonState r1.2.ents = canonState r2.2.ents)) := by
  intro hP
  obtain ⟨n, m, hne, heq⟩ := Finite.exists_ne_map_eq_of_infinite
    (fun n : Nat =>
      ((⟨(md5words (utf8Bytes (pyReprState (canonState (mkIntMgr n).ents)))).1,
          (md5words_lt _).1⟩ : Fin 4294967296),
       (⟨(md5words (utf8Bytes (pyReprState (canonState (mkIntMgr n).ents)))).2.1,
          (md5words_lt _).2.1⟩ : Fin 4294967296),
       (⟨(md5words (utf8Bytes (pyReprState (canonState (mkIntMgr n).ents)))).2.2.1,
          (md5words_lt _).2.2.1⟩ : Fin 4294967296),
       (⟨(md5words (utf8Bytes (pyReprState (canonState (mkIntMgr n).ents)))).2.2.2,
          (md5words_lt _).2.2.2⟩ : Fin 4294967296)))
  have h1 := congrArg (fun x => x.1.val) heq
  have h2 := congrArg (fun x => x.2.1.val) heq
  have h3 := congrArg (fun x => x.2.2.1.val) heq
  have h4 := congrArg (fun x => x.2.2.2.val) heq
  have hw : md5words (utf8Bytes (pyReprState (canonState (mkIntMgr n).ents)))
      = md5words (utf8Bytes (pyReprState (canonState (mkIntMgr m).ents))) :=
    Prod.ext h1 (Prod.ext h2 (Prod.ext h3 h4))
  have hfp : fingerprint (mkIntMgr n).ents = fingerprint (mkIntMgr m).ents := by
    simp only [fingerprint, fpOfCanon, md5hex]
    rw [hw]
  have hiff := hP (mkIntMgr n) (mkIntMgr m)
    (fingerprint (mkIntMgr n).ents, mkIntMgr n)
    (fingerprint (mkIntMgr m).ents, mkIntMgr m) rfl rfl
  have hcanon : canonState (mkIntMgr n).ents = canonState (mkIntMgr m).ents :=
    hiff.mp hfp
  have : n = m := by
    simpa [mkIntMgr, canonState, sortItems, insertByKey] using hcanon
  exact hne this

/-- C1 (amended): the fingerprint returned by `do_step` is a function of
the canonicalized entity state — if two (successful) ticks leave stores
with equal canonical states (each entity's items sorted by key, collected
in store order), the returned fingerprints are equal — and for a fixed
entity store and a system list in which no system mutates the store, a
tick succeeds, leaves the manager unchanged, and a second consecutive tick
returns the same fingerprint. The converse direction of the claim's "if
and only if" fails only on digest collisions (see the counterexample). -/
theorem fingerprint_amended :
    (∀ (m1 m2 : EntityManager) (e1 e2 : Store),
        runSystems m1.systems m1.ents = Option.some e1 →
        runSystems m2.systems m2.ents = Option.some e2 →
        canonState e1 = canonState e2 →
        (EntityManager.do_step m1).map Prod.fst
          = (EntityManager.do_step m2).map Prod.fst)
    ∧ (∀ m : EntityManager,
        (∀ sys ∈ m.systems, ∀ (st : Store) (g : List Entity),
          sys.do_step_all st g = Option.some st) →
        EntityManager.do_step m = Option.some (fingerprint m.ents, m)
        ∧ ((EntityManager.do_step m).bind
            (fun r => EntityManager.do_step r.2)).map Prod.fst
          = (EntityManager.do_step m).map Prod.fst) := by
  constructor
  · intro m1 m2 e1 e2 h1 h2 hc
    simp only [EntityManager.do_step, h1, h2, Option.map_map, Option.map_some']
    simp only [Function.comp, fingerprint]
    rw [hc]
  · intro m hsys
    have hrun : runSystems m.systems m.ents = Option.some m.ents :=
      runSystems_id m.systems m.ents hsys
    have hstep : EntityManager.do_step m = Option.some (fingerprint m.ents, m) := by
      simp only [EntityManager.do_step, hrun, Option.map_some']
    refine ⟨hstep, ?_⟩
    rw [hstep]
    simp only [Option.some_bind, hstep]

/-- C1 witness: `mgrA` and `mgrB` hold the same components in different
insertion orders, so their canonical states agree and `do_step` returns
equal fingerprints; and on `mgrC`, whose only system does not mutate, two
consecutive `do_step` calls return the same fingerprint. -/
theorem fingerprint_amended_witness :
    (EntityManager.do_step mgrA).map Prod.fst
      = (EntityManager.do_step mgrB).map Prod.fst
    ∧ ((EntityManager.do_step mgrC).bind
        (fun r => EntityManager.do_step r.2)).map Prod.fst
      = (EntityManager.do_step mgrC).map Prod.fst :=
  ⟨fingerprint_amended.1 mgrA mgrB mgrA.ents mgrB.ents rfl rfl rfl,
    (fingerprint_amended.2 mgrC (by
      intro sys hs st g
      have hsys : sys = idSys := List.mem_singleton.mp hs
      rw [hsys]
      rfl)).2⟩

end OLS
